import Mathlib

/-!
Shallow embedding of the ha-welkom integration core (models.py, client.py,
coordinator.py) and proofs about the claims of its specification.

Modelling conventions:
- Python `str | int` door-code payloads become the inductive `StrInt`;
  Python truthiness of such values (None, empty string and 0 are falsy)
  is the function `pyTruthyStrInt`.
- Python dicts (which preserve insertion order and overwrite on repeated
  keys) become association lists with `dictGet` / `dictSet` / `dictUpd`;
  `dictUpd` models the `defaultdict` read-then-mutate pattern of the
  coordinator.
- `str.casefold` is modelled as ASCII lowercasing (a structurally
  recursive map over the characters, so that the kernel can evaluate it);
  no claim depends on non-ASCII folding behaviour.
- Latitude / longitude floats are modelled as exact rationals: the code
  only copies them from the zone table into `PersonData`, it never does
  arithmetic on them.
- Free-form attribute bags (`Device.attrs`, the extra fields of
  `Metadata`) and the purely presentational nested config of
  `Home.Attrs` (wifi, address, links) are omitted: no claim and no
  modelled operation reads them.
-/

/-- models.py Network.Attrs. -/
structure NetworkAttrs where
  mdi_icon : Option String := none
deriving DecidableEq, Repr

/-- models.py Network. -/
structure Network where
  id : String
  display_name : String
  attrs : NetworkAttrs := {}
deriving DecidableEq, Repr

/-- models.py DeviceType enum. -/
inductive DeviceType where
  | phone
  | wearable
  | handheld
  | laptop
  | tablet
  | desktop
  | other
deriving DecidableEq, Repr

/-- models.py Device (the free-form attrs bag is omitted, nothing reads it). -/
structure Device where
  known : Bool
  ids : List String
  display_name : String
  type : Option DeviceType
  tracker : Bool
  personal : Bool
deriving DecidableEq, Repr

/-- A Python value of type str or int, as used for door codes. -/
inductive StrInt where
  | str (s : String)
  | int (n : Int)
deriving DecidableEq, Repr

/-- models.py Person.Attrs. -/
structure PersonAttrs where
  phone : Option String := none
  email : Option String := none
  door_code : Option StrInt := none
  mdi_icon : Option String := none
deriving DecidableEq, Repr

/-- models.py Person. -/
structure Person where
  known : Bool
  id : String
  display_name : String
  avatar_url : Option String
  attrs : PersonAttrs := {}
deriving DecidableEq, Repr

/-- models.py Role.Attrs. -/
structure RoleAttrs where
  mdi_icon : Option String := none
deriving DecidableEq, Repr

/-- models.py Role. -/
structure Role where
  id : String
  display_name : String
  attrs : RoleAttrs := {}
deriving DecidableEq, Repr

/-- models.py Room.Attrs. -/
structure RoomAttrs where
  mdi_icon : Option String := none
deriving DecidableEq, Repr

/-- models.py Room (a concrete Area variant: id and display name). -/
structure Room where
  id : String
  display_name : String
  attrs : RoomAttrs := {}
deriving DecidableEq, Repr

/-- models.py Home.Attrs.DoorCode. The source field named after the
string-concatenation operation is rendered as pfx. -/
structure DoorCode where
  pfx : Option String := none
  code : Option StrInt := none
deriving DecidableEq, Repr

/-- models.py Home.Attrs (wifi, address, links and avatar_url are omitted
presentational config; door_code and mdi_icon are kept). -/
structure HomeAttrs where
  door_code : Option DoorCode := none
  mdi_icon : Option String := none
deriving DecidableEq, Repr

/-- models.py Home (the other concrete Area variant). -/
structure Home where
  id : String
  display_name : String
  connected : Option Bool := none
  rooms : List Room := []
  attrs : HomeAttrs := {}
deriving DecidableEq, Repr

/-- models.py Metadata (extra unrecognized fields are preserved opaquely by
the source and read by nothing that is modelled, so they are omitted). -/
structure Metadata where
  ip : Option String := none
  mac : Option String := none
  mac_is_private : Bool := false
  wifi_ssid : Option String := none
deriving DecidableEq, Repr

/-- models.py Connection. -/
structure Connection where
  summary : String
  known : Bool
  active_ids : List String
  known_active_ids : List String
  network : Network
  device : Device
  person : Option Person := none
  role : Role
  home : Option Home := none
  room : Option Room := none
  metadata : Metadata
deriving DecidableEq, Repr

/-- models.py ConnectedPerson. -/
structure ConnectedPerson where
  known : Bool
  person : Person
  home : Option Home := none
  room : Option Room := none
  role : Role
  connection : Connection
deriving DecidableEq, Repr

/-- Python hash of a string: an unspecified deterministic function of the
string; the claims only need that it is a function. -/
def pyHashStr (s : String) : Nat :=
  s.hash.toNat

/-- models.py Area.eq as inherited by Room: isinstance(other, Room) check
followed by id comparison; between two Room values this is id equality. -/
def roomEq (a b : Room) : Bool :=
  a.id == b.id

/-- models.py Area.hash for a Room: hash of the id. -/
def roomHash (r : Room) : Nat :=
  pyHashStr r.id

/-- models.py Home.eq: isinstance(other, Home) check followed by id
comparison; between two Home values this is id equality. -/
def homeEq (a b : Home) : Bool :=
  a.id == b.id

/-- models.py Home.hash: hash of the id. -/
def homeHash (h : Home) : Nat :=
  pyHashStr h.id

/-- models.py Connection.eq: same network id and identical active_ids. -/
def connectionEq (a b : Connection) : Bool :=
  a.network.id == b.network.id && a.active_ids == b.active_ids

/-- Python truthiness of an optional str-or-int value: None, the empty
string and the integer 0 are falsy. -/
def pyTruthyStrInt : Option StrInt → Bool
  | none => false
  | some (.str s) => !(s == "")
  | some (.int n) => !(n == 0)

/-- Python str() applied to a str-or-int value. -/
def StrInt.toStr : StrInt → String
  | .str s => s
  | .int n => toString n

/-- models.py Home.door_code(person). Mirrors the source line by line:
if the attrs hold no DoorCode config at all, the result is None without
consulting the person; the code is the config code when truthy, else the
person code (when a person is given); a falsy resolved code yields None;
a truthy configured pfx is prepended. -/
def Home.door_code (h : Home) (person : Option Person) : Option String :=
  match h.attrs.door_code with
  | none => none
  | some dc =>
    let code : Option StrInt :=
      if pyTruthyStrInt dc.code then dc.code
      else match person with
        | some p => p.attrs.door_code
        | none => none
    if pyTruthyStrInt code then
      match code with
      | some c =>
        let s := c.toStr
        match dc.pfx with
        | some pre => if pre == "" then some s else some (pre ++ s)
        | none => some s
      | none => none
    else none

/-- homeassistant STATE_HOME sentinel. -/
def STATE_HOME : String := "home"

/-- coordinator.py AreaData (shared shape of HomeData and RoomData). -/
structure AreaData where
  people_count : Nat := 0
  people : List String := []
  known_people_count : Nat := 0
  known_people : List String := []
  unknown_people_count : Nat := 0
  unknown_people : List String := []
deriving DecidableEq, Repr

/-- coordinator.py PersonData. Coordinates are exact rationals, see the
file header. -/
structure PersonData where
  person : Option Person := none
  device : Option Device := none
  home : Home
  room : Option Room := none
  state : Option String := none
  latitude : Option Rat := none
  longitude : Option Rat := none
deriving DecidableEq, Repr

/-- coordinator.py WelkomData: the snapshot of one refresh tick. The dict
fields are insertion-ordered association lists, matching Python dicts. -/
structure WelkomData where
  homes : List (String × AreaData) := []
  rooms : List (String × AreaData) := []
  people : List (String × PersonData) := []
  unknown_people : List PersonData := []
deriving DecidableEq, Repr

/-- Lookup in an insertion-ordered dict modelled as an association list. -/
def dictGet {α : Type} (l : List (String × α)) (k : String) : Option α :=
  match l with
  | [] => none
  | (k1, v) :: rest => if k1 == k then some v else dictGet rest k

/-- Python dict assignment: overwrite in place when the key exists,
append at the end otherwise. -/
def dictSet {α : Type} (l : List (String × α)) (k : String) (v : α) : List (String × α) :=
  match l with
  | [] => [(k, v)]
  | (k1, v1) :: rest => if k1 == k then (k, v) :: rest else (k1, v1) :: dictSet rest k v

/-- The defaultdict read-then-mutate pattern of the coordinator:
d[k] starts from the default when the key is absent and is updated by f. -/
def dictUpd {α : Type} (l : List (String × α)) (k : String) (d : α) (f : α → α) : List (String × α) :=
  dictSet l k (f ((dictGet l k).getD d))

/-- ASCII lowercasing of one character. -/
def asciiLower (c : Char) : Char :=
  if 65 ≤ c.toNat ∧ c.toNat ≤ 90 then Char.ofNat (c.toNat + 32) else c

/-- Python str.casefold, modelled as ASCII lowercasing. -/
def casefold (s : String) : String :=
  String.mk (s.data.map asciiLower)

/-- coordinator.py WelkomCoordinator update_area_data: count up and append
the display name on the area aggregate, on the overall fields and on the
known or unknown fields according to the known flag. -/
def update_area_data (ad : AreaData) (conn : ConnectedPerson) : AreaData :=
  let ad := { ad with
    people_count := ad.people_count + 1,
    people := ad.people ++ [conn.person.display_name] }
  if conn.known then
    { ad with
      known_people_count := ad.known_people_count + 1,
      known_people := ad.known_people ++ [conn.person.display_name] }
  else
    { ad with
      unknown_people_count := ad.unknown_people_count + 1,
      unknown_people := ad.unknown_people ++ [conn.person.display_name] }

/-- The state-string derivation from the loop body of
coordinator.py async_update_data: the effective home is the connection
home override or the main home; inside the main home the state is the room
display name or the STATE_HOME sentinel, in another home it is that home
display name, with a colon-space room suffix when a room is present. -/
def connState (main_home : Home) (conn : ConnectedPerson) : String :=
  let home := conn.home.getD main_home
  if homeEq home main_home then
    match conn.room with
    | some room => room.display_name
    | none => STATE_HOME
  else
    match conn.room with
    | some room => home.display_name ++ ": " ++ room.display_name
    | none => home.display_name

/-- The PersonData constructed for one connection in
coordinator.py async_update_data, before coordinate assignment. -/
def mkPersonData (main_home : Home) (conn : ConnectedPerson) : PersonData :=
  { person := some conn.person
    device := some conn.connection.device
    home := conn.home.getD main_home
    room := conn.room
    state := some (connState main_home conn) }

/-- One iteration of the main loop of coordinator.py async_update_data:
classify the PersonData into the known map or the unknown list, update the
HomeData aggregate of the effective home (a Home instance is always truthy
in Python, so the source guard on home always holds), and update the
RoomData aggregate exactly when the effective home is the main home and a
room is present. -/
def updateStep (main_home : Home) (st : WelkomData) (conn : ConnectedPerson) : WelkomData :=
  let home := conn.home.getD main_home
  let pd := mkPersonData main_home conn
  let st :=
    if conn.known then { st with people := dictSet st.people conn.person.id pd }
    else { st with unknown_people := st.unknown_people ++ [pd] }
  let st := { st with homes := dictUpd st.homes home.id {} (fun ad => update_area_data ad conn) }
  if homeEq home main_home then
    match conn.room with
    | some room => { st with rooms := dictUpd st.rooms room.id {} (fun ad => update_area_data ad conn) }
    | none => st
  else st

/-- The coordinate-assignment pass of coordinator.py async_update_data.
The source groups the (aliased, mutable) PersonData records by state and
assigns to each group the zone coordinates found under the casefolded
state, skipping states with no zone entry; since the looked-up value
depends only on the state of each record, the net effect is this
per-record assignment. -/
def assignCoords (zones : List (String × Rat × Rat)) (pd : PersonData) : PersonData :=
  match pd.state with
  | none => pd
  | some s =>
    match dictGet zones (casefold s) with
    | some (la, lo) => { pd with latitude := some la, longitude := some lo }
    | none => pd

/-- coordinator.py WelkomCoordinator async_update_data: fold the loop body
over the fetched connections starting from empty aggregates, then assign
zone coordinates to every produced PersonData. The zones argument is the
zone-name-to-coordinates dict built by the zone_lat_longs property, whose
keys are casefolded zone names. -/
def async_update_data (main_home : Home) (zones : List (String × Rat × Rat))
    (conns : List ConnectedPerson) : WelkomData :=
  let st := conns.foldl (updateStep main_home) {}
  { st with
    people := st.people.map (fun kv => (kv.1, assignCoords zones kv.2)),
    unknown_people := (st.unknown_people).map (assignCoords zones) }

/-- Python truthiness of an optional string: None and the empty string are
falsy. -/
def pyTruthyOptStr : Option String → Bool
  | none => false
  | some s => !(s == "")

/-- The comma-joined available home ids used in the error messages of the
home resolution. -/
def joinHomeIds (homes : List (String × Home)) : String :=
  String.intercalate ", " (homes.map Prod.fst)

/-- coordinator.py WelkomCoordinator.home (the client.py WelkomClient.home
accessor has the identical resolution logic): fail when no homes were
fetched; when a home id is configured (truthy), look it up and fail with a
configuration error enumerating the available ids when absent; otherwise
take the single home, or fail with a configuration error enumerating the
available ids. The singleton match mirrors the len(homes) == 1 test
followed by next(iter(homes.values())). -/
def coordinator_home (home_id : Option String) (homes : Option (List (String × Home))) :
    Except String Home :=
  match homes with
  | none => Except.error "No homes found"
  | some hs =>
    if pyTruthyOptStr home_id then
      let hid := home_id.getD ""
      match dictGet hs hid with
      | some home => Except.ok home
      | none =>
        Except.error ("Home \x27" ++ hid ++ "\x27 not found. Available homes: " ++ joinHomeIds hs)
    else
      match hs with
      | [(_, home)] => Except.ok home
      | _ =>
        Except.error ("You have multiple homes, please specify the \x27home_id\x27 in the configuration. Available homes: " ++ joinHomeIds hs)

/-- An order-preserving interleaving: l is built from a and b by repeatedly
taking the next element from the end of one of them. -/
inductive Interleave : List String → List String → List String → Prop
  | nil : Interleave [] [] []
  | left {l a b : List String} (x : String) :
      Interleave l a b → Interleave (l ++ [x]) (a ++ [x]) b
  | right {l a b : List String} (x : String) :
      Interleave l a b → Interleave (l ++ [x]) a (b ++ [x])

/-! Helper lemmas about the dict model. -/

theorem dictGet_dictSet_self {α : Type} (l : List (String × α)) (k : String) (v : α) :
    dictGet (dictSet l k v) k = some v := by
  induction l with
  | nil => simp [dictGet, dictSet]
  | cons kv rest ih =>
    obtain ⟨k1, v1⟩ := kv
    by_cases h : k1 = k
    · simp [dictGet, dictSet, h]
    · simp [dictGet, dictSet, h, ih]

theorem dictGet_dictSet_ne {α : Type} (l : List (String × α)) (k k1 : String) (v : α)
    (h : k1 ≠ k) : dictGet (dictSet l k v) k1 = dictGet l k1 := by
  have h' : ¬(k = k1) := fun hh => h hh.symm
  induction l with
  | nil => simp [dictGet, dictSet, h']
  | cons kv rest ih =>
    obtain ⟨k2, v2⟩ := kv
    by_cases h2 : k2 = k
    · subst h2
      simp [dictGet, dictSet, h']
    · by_cases h3 : k2 = k1
      · simp [dictGet, dictSet, h2, h3, h]
      · simp [dictGet, dictSet, h2, h3, ih]

theorem mem_dictSet {α : Type} (l : List (String × α)) (k k1 : String) (v v1 : α)
    (h : (k1, v1) ∈ dictSet l k v) : (k1 = k ∧ v1 = v) ∨ (k1, v1) ∈ l := by
  induction l with
  | nil =>
    simp [dictSet] at h
    exact Or.inl h
  | cons kv rest ih =>
    obtain ⟨k2, v2⟩ := kv
    by_cases h2 : k2 = k
    · simp only [dictSet, h2, beq_self_eq_true, if_true] at h
      rcases List.mem_cons.mp h with h3 | h3
      · exact Or.inl (by simpa using h3)
      · exact Or.inr (List.mem_cons_of_mem _ h3)
    · simp only [dictSet, beq_iff_eq, h2, if_false] at h
      rcases List.mem_cons.mp h with h3 | h3
      · exact Or.inr (by simp [h3])
      · rcases ih h3 with h4 | h4
        · exact Or.inl h4
        · exact Or.inr (List.mem_cons_of_mem _ h4)

theorem dictGet_some_mem {α : Type} (l : List (String × α)) (k : String) (v : α)
    (h : dictGet l k = some v) : (k, v) ∈ l := by
  induction l with
  | nil => simp [dictGet] at h
  | cons kv rest ih =>
    obtain ⟨k1, v1⟩ := kv
    by_cases h1 : k1 = k
    · simp [dictGet, h1] at h
      simp [h1, h]
    · simp [dictGet, h1] at h
      exact List.mem_cons_of_mem _ (ih h)

theorem mem_nodup_dictGet {α : Type} (l : List (String × α)) (k : String) (v : α)
    (hmem : (k, v) ∈ l) (hnodup : (l.map Prod.fst).Nodup) : dictGet l k = some v := by
  induction l with
  | nil => simp at hmem
  | cons kv rest ih =>
    obtain ⟨k1, v1⟩ := kv
    simp only [List.map_cons, List.nodup_cons] at hnodup
    rcases List.mem_cons.mp hmem with h | h
    · obtain ⟨hk, hv⟩ := Prod.mk.inj h.symm
      subst hk
      subst hv
      simp [dictGet]
    · by_cases h1 : k1 = k
      · exfalso
        apply hnodup.1
        subst h1
        exact List.mem_map.mpr ⟨(k1, v), h, rfl⟩
      · simp only [dictGet, beq_iff_eq, h1, if_false]
        exact ih h hnodup.2

theorem dictGet_none_iff {α : Type} (l : List (String × α)) (k : String) :
    dictGet l k = none ↔ k ∉ l.map Prod.fst := by
  induction l with
  | nil => simp [dictGet]
  | cons kv rest ih =>
    obtain ⟨k1, v1⟩ := kv
    by_cases h1 : k1 = k
    · simp [dictGet, h1]
    · simp only [dictGet, beq_iff_eq, h1, if_false, List.map_cons, List.mem_cons]
      rw [ih]
      constructor
      · intro hnone hor
        rcases hor with hor | hor
        · exact h1 hor.symm
        · exact hnone hor
      · intro hno hmem
        exact hno (Or.inr hmem)

theorem length_dictSet_new {α : Type} (l : List (String × α)) (k : String) (v : α)
    (h : dictGet l k = none) : (dictSet l k v).length = l.length + 1 := by
  induction l with
  | nil => simp [dictSet]
  | cons kv rest ih =>
    obtain ⟨k1, v1⟩ := kv
    by_cases h1 : k1 = k
    · simp [dictGet, h1] at h
    · simp only [dictGet, beq_iff_eq, h1, if_false] at h
      simp [dictSet, h1, ih h]

theorem keys_dictSet {α : Type} (l : List (String × α)) (k k1 : String) (v : α) :
    k1 ∈ (dictSet l k v).map Prod.fst ↔ k1 = k ∨ k1 ∈ l.map Prod.fst := by
  induction l with
  | nil => simp [dictSet]
  | cons kv rest ih =>
    obtain ⟨k2, v2⟩ := kv
    by_cases h2 : k2 = k
    · subst h2
      simp only [dictSet, beq_self_eq_true, if_true, List.map_cons, List.mem_cons]
      tauto
    · simp only [dictSet, beq_iff_eq, h2, if_false, List.map_cons, List.mem_cons]
      rw [ih]
      tauto

theorem dictGet_map {α β : Type} (l : List (String × α)) (f : α → β) (k : String) :
    dictGet (l.map (fun kv => (kv.1, f kv.2))) k = (dictGet l k).map f := by
  induction l with
  | nil => simp [dictGet]
  | cons kv rest ih =>
    obtain ⟨k1, v1⟩ := kv
    by_cases h1 : k1 = k
    · simp [dictGet, h1]
    · simp [dictGet, h1, ih]

/-! Projections of one loop iteration and characterizations of the fold. -/

/-- The action of one loop iteration on the known-people dict. -/
def peopleStep (main_home : Home) (m : List (String × PersonData)) (c : ConnectedPerson) :
    List (String × PersonData) :=
  if c.known then dictSet m c.person.id (mkPersonData main_home c) else m

/-- The action of one loop iteration on the homes dict. -/
def homesStep (main_home : Home) (m : List (String × AreaData)) (c : ConnectedPerson) :
    List (String × AreaData) :=
  dictUpd m (c.home.getD main_home).id {} (fun ad => update_area_data ad c)

/-- The action of one loop iteration on the rooms dict. -/
def roomsStep (main_home : Home) (m : List (String × AreaData)) (c : ConnectedPerson) :
    List (String × AreaData) :=
  if homeEq (c.home.getD main_home) main_home then
    match c.room with
    | some room => dictUpd m room.id {} (fun ad => update_area_data ad c)
    | none => m
  else m

theorem updateStep_people (mh : Home) (st : WelkomData) (c : ConnectedPerson) :
    (updateStep mh st c).people = peopleStep mh st.people c := by
  unfold updateStep peopleStep
  cases hk : c.known <;> cases hh : homeEq (c.home.getD mh) mh <;> cases hr : c.room <;>
    simp [hk, hh, hr]

theorem updateStep_unknown (mh : Home) (st : WelkomData) (c : ConnectedPerson) :
    (updateStep mh st c).unknown_people =
      if c.known then st.unknown_people else st.unknown_people ++ [mkPersonData mh c] := by
  unfold updateStep
  cases hk : c.known <;> cases hh : homeEq (c.home.getD mh) mh <;> cases hr : c.room <;>
    simp [hk, hh, hr]

theorem updateStep_homes (mh : Home) (st : WelkomData) (c : ConnectedPerson) :
    (updateStep mh st c).homes = homesStep mh st.homes c := by
  unfold updateStep homesStep
  cases hk : c.known <;> cases hh : homeEq (c.home.getD mh) mh <;> cases hr : c.room <;>
    simp [hk, hh, hr]

theorem updateStep_rooms (mh : Home) (st : WelkomData) (c : ConnectedPerson) :
    (updateStep mh st c).rooms = roomsStep mh st.rooms c := by
  unfold updateStep roomsStep
  cases hk : c.known <;> cases hh : homeEq (c.home.getD mh) mh <;> cases hr : c.room <;>
    simp [hk, hh, hr]

theorem foldl_updateStep_people (mh : Home) (conns : List ConnectedPerson) (st : WelkomData) :
    (conns.foldl (updateStep mh) st).people = conns.foldl (peopleStep mh) st.people := by
  induction conns generalizing st with
  | nil => rfl
  | cons c rest ih =>
    simp only [List.foldl_cons]
    rw [ih, updateStep_people]

theorem foldl_updateStep_homes (mh : Home) (conns : List ConnectedPerson) (st : WelkomData) :
    (conns.foldl (updateStep mh) st).homes = conns.foldl (homesStep mh) st.homes := by
  induction conns generalizing st with
  | nil => rfl
  | cons c rest ih =>
    simp only [List.foldl_cons]
    rw [ih, updateStep_homes]

theorem foldl_updateStep_rooms (mh : Home) (conns : List ConnectedPerson) (st : WelkomData) :
    (conns.foldl (updateStep mh) st).rooms = conns.foldl (roomsStep mh) st.rooms := by
  induction conns generalizing st with
  | nil => rfl
  | cons c rest ih =>
    simp only [List.foldl_cons]
    rw [ih, updateStep_rooms]

theorem foldl_updateStep_unknown (mh : Home) (conns : List ConnectedPerson) (st : WelkomData) :
    (conns.foldl (updateStep mh) st).unknown_people =
      st.unknown_people ++ (conns.filter (fun c => !c.known)).map (mkPersonData mh) := by
  induction conns generalizing st with
  | nil => simp
  | cons c rest ih =>
    simp only [List.foldl_cons, List.filter_cons]
    rw [ih]
    cases hk : c.known <;> simp [updateStep_unknown, hk]

/-! Sample values used by witnesses and counterexamples. -/

def sRoomLiving : Room := { id := "living", display_name := "Living Room" }

def sHomeMain : Home := { id := "main", display_name := "Main Home", rooms := [sRoomLiving] }

def sHomeOther : Home := { id := "other", display_name := "Other Home" }

def sNetwork : Network := { id := "net", display_name := "Net" }

def sDevice : Device :=
  { known := true, ids := ["d1"], display_name := "Pixel", type := some DeviceType.phone,
    tracker := true, personal := true }

def sRole : Role := { id := "resident", display_name := "Resident" }

def sPerson (i nm : String) (kn : Bool) : Person :=
  { known := kn, id := i, display_name := nm, avatar_url := none }

def sConn (kn : Bool) (p : Person) (hm : Option Home) (rm : Option Room) : ConnectedPerson :=
  { known := kn, person := p, home := hm, room := rm, role := sRole,
    connection := { summary := "conn", known := kn, active_ids := ["a1"], known_active_ids := [],
                    network := sNetwork, device := sDevice, person := some p, role := sRole,
                    home := hm, room := rm, metadata := {} } }

/-- C8: two Connection values are equal under the overridden equality exactly
when they share the network id and have identical active-id lists; every
other field (device, person, role, home, room, metadata, summary) is
irrelevant to the comparison. -/
theorem connection_eq_iff (a b : Connection) :
    connectionEq a b = true ↔ a.network.id = b.network.id ∧ a.active_ids = b.active_ids := by
  simp [connectionEq]

/-- C9: Home equality and Room equality hold exactly when the id fields are
equal, regardless of every other field, and equal ids give equal hashes for
both variants, so two distinct fetches of the same home or room compare
equal. -/
theorem area_eq_by_id (h1 h2 : Home) (r1 r2 : Room) :
    (homeEq h1 h2 = true ↔ h1.id = h2.id) ∧
    (roomEq r1 r2 = true ↔ r1.id = r2.id) ∧
    (h1.id = h2.id → homeHash h1 = homeHash h2) ∧
    (r1.id = r2.id → roomHash r1 = roomHash r2) :=
  ⟨by simp [homeEq], by simp [roomEq],
   fun h => by simp [homeHash, h], fun h => by simp [roomHash, h]⟩

def c9HomeA : Home := { id := "h", display_name := "First fetch" }

def c9HomeB : Home := { id := "h", display_name := "Second fetch", connected := some true }

def c9RoomA : Room := { id := "r", display_name := "First fetch" }

def c9RoomB : Room := { id := "r", display_name := "Second fetch" }

/-- Witness for C9: two fetches of the same home (and room) differing in all
other fields are equal and share hashes. -/
theorem area_eq_by_id_witness :
    homeEq c9HomeA c9HomeB = true ∧ homeHash c9HomeA = homeHash c9HomeB ∧
    roomEq c9RoomA c9RoomB = true ∧ roomHash c9RoomA = roomHash c9RoomB :=
  ⟨(area_eq_by_id c9HomeA c9HomeB c9RoomA c9RoomB).1.mpr rfl,
   (area_eq_by_id c9HomeA c9HomeB c9RoomA c9RoomB).2.2.1 rfl,
   (area_eq_by_id c9HomeA c9HomeB c9RoomA c9RoomB).2.1.mpr rfl,
   (area_eq_by_id c9HomeA c9HomeB c9RoomA c9RoomB).2.2.2 rfl⟩

/-- C1: the state string of the PersonData built for a fetched connection:
when the effective home (the home override when present, else the main
home) equals the main home, it is the room display name when a room is
present and the STATE_HOME sentinel otherwise; when the effective home
differs, it is that home display name, suffixed with a colon-space and the
room display name when a room is present. -/
theorem state_string_correct (mh : Home) (c : ConnectedPerson) :
    (homeEq (c.home.getD mh) mh = true →
      (mkPersonData mh c).state = some (match c.room with
        | some r => r.display_name
        | none => STATE_HOME)) ∧
    (homeEq (c.home.getD mh) mh = false →
      (mkPersonData mh c).state = some (match c.room with
        | some r => (c.home.getD mh).display_name ++ ": " ++ r.display_name
        | none => (c.home.getD mh).display_name)) := by
  constructor <;> intro h <;> simp [mkPersonData, connState, h]

def c1conn : ConnectedPerson := sConn true (sPerson "p1" "Alice" true) none (some sRoomLiving)

/-- Witness for C1: a connection in the main home with a room gets the room
display name as state. -/
theorem state_string_correct_witness :
    (mkPersonData sHomeMain c1conn).state = some "Living Room" := by
  have h := (state_string_correct sHomeMain c1conn).1 (by decide)
  simpa using h

def c7home : Home := { id := "h7", display_name := "Home 7" }

def c7person : Person :=
  { known := true, id := "p7", display_name := "Carol", avatar_url := none,
    attrs := { door_code := some (StrInt.str "1234") } }

/-- Counterexample to C7 as stated: a home with no door-code configuration
at all and a person with personal code 1234. The claim requires the
personal-code fallback to produce the code, but the source returns early
with None before ever consulting the person. -/
theorem door_code_counterexample :
    c7home.attrs.door_code = none ∧
    c7person.attrs.door_code = some (StrInt.str "1234") ∧
    Home.door_code c7home (some c7person) = none ∧
    Home.door_code c7home (some c7person) ≠ some "1234" :=
  ⟨rfl, rfl, rfl, by decide⟩

/-- The amended C7 resolution written from the amended claim wording: when
the home carries a door-code configuration, use the code of that
configuration if it is set (truthy), else the personal code of the given
person if present and set; the chosen code is prefixed with the configured
pfx when that is non-empty; when the home carries no door-code
configuration at all, or no code is set from either source, the result is
none. -/
def door_code_spec (h : Home) (person : Option Person) : Option String :=
  match h.attrs.door_code with
  | none => none
  | some dc =>
    let own : Option StrInt := if pyTruthyStrInt dc.code then dc.code else none
    let personal : Option StrInt :=
      match person with
      | some p => if pyTruthyStrInt p.attrs.door_code then p.attrs.door_code else none
      | none => none
    match (match own with | some c => some c | none => personal) with
    | none => none
    | some c =>
      match dc.pfx with
      | some pre => if pre == "" then some c.toStr else some (pre ++ c.toStr)
      | none => some c.toStr

/-- C7 amended: the source door-code resolution agrees with the amended
specification function on every home and every optional person. -/
theorem door_code_amended (h : Home) (p : Option Person) :
    Home.door_code h p = door_code_spec h p := by
  cases hdc : h.attrs.door_code with
  | none => simp [Home.door_code, door_code_spec, hdc]
  | some dc =>
    obtain ⟨pfxv, codev⟩ := dc
    cases p with
    | none =>
      simp only [Home.door_code, door_code_spec, hdc]
      rcases codev with _ | ⟨s | n⟩ <;> rcases pfxv with _ | pre
      all_goals try by_cases hs : s = ""
      all_goals try by_cases hn : n = 0
      all_goals try by_cases hpre : pre = ""
      all_goals simp [pyTruthyStrInt, StrInt.toStr, *]
    | some q =>
      simp only [Home.door_code, door_code_spec, hdc]
      generalize q.attrs.door_code = pc
      rcases codev with _ | ⟨s | n⟩ <;> rcases pc with _ | ⟨t | m⟩ <;>
        rcases pfxv with _ | pre
      all_goals try by_cases hs : s = ""
      all_goals try by_cases hn : n = 0
      all_goals try by_cases ht : t = ""
      all_goals try by_cases hm : m = 0
      all_goals try by_cases hpre : pre = ""
      all_goals simp [pyTruthyStrInt, StrInt.toStr, *]

/-- C5: primary-home resolution. A configured (non-empty) home id present
among the fetched homes yields that home; a configured id that is absent
yields a configuration error enumerating the available home ids; with no
configured id, a single fetched home is returned, and zero or several
fetched homes yield a configuration error, enumerating the available home
ids. -/
theorem home_resolution (hid : String) (homes : List (String × Home)) :
    (∀ home, hid ≠ "" → dictGet homes hid = some home →
      coordinator_home (some hid) (some homes) = Except.ok home) ∧
    (hid ≠ "" → dictGet homes hid = none →
      coordinator_home (some hid) (some homes) =
        Except.error ("Home \x27" ++ hid ++ "\x27 not found. Available homes: "
          ++ joinHomeIds homes)) ∧
    (∀ (k : String) (home : Home), coordinator_home none (some [(k, home)]) = Except.ok home) ∧
    (homes.length ≠ 1 →
      coordinator_home none (some homes) =
        Except.error ("You have multiple homes, please specify the \x27home_id\x27 in the configuration. Available homes: " ++ joinHomeIds homes)) := by
  refine ⟨?_, ?_, ?_, ?_⟩
  · intro home hne hget
    simp [coordinator_home, pyTruthyOptStr, hne, hget]
  · intro hne hget
    simp [coordinator_home, pyTruthyOptStr, hne, hget]
  · intro k home
    simp [coordinator_home, pyTruthyOptStr]
  · intro hlen
    match homes, hlen with
    | [], _ => rfl
    | (k1, v1) :: (k2, v2) :: rest, _ => rfl

def c5homes : List (String × Home) := [("main", sHomeMain), ("other", sHomeOther)]

/-- Witness for C5: the four resolution cases at concrete home catalogs. -/
theorem home_resolution_witness :
    coordinator_home (some "main") (some c5homes) = Except.ok sHomeMain ∧
    coordinator_home (some "nope") (some c5homes) =
      Except.error ("Home \x27nope\x27 not found. Available homes: " ++ joinHomeIds c5homes) ∧
    coordinator_home none (some [("main", sHomeMain)]) = Except.ok sHomeMain ∧
    coordinator_home none (some c5homes) =
      Except.error ("You have multiple homes, please specify the \x27home_id\x27 in the configuration. Available homes: " ++ joinHomeIds c5homes) :=
  ⟨(home_resolution "main" c5homes).1 sHomeMain (by decide) (by decide),
   (home_resolution "nope" c5homes).2.1 (by decide) (by decide),
   (home_resolution "" c5homes).2.2.1 "main" sHomeMain,
   (home_resolution "x" c5homes).2.2.2 (by decide)⟩

theorem dictGet_dictUpd_self {α : Type} (l : List (String × α)) (k : String) (d : α) (f : α → α) :
    dictGet (dictUpd l k d f) k = some (f ((dictGet l k).getD d)) := by
  unfold dictUpd
  exact dictGet_dictSet_self l k _

/-- C2: in one loop iteration, the HomeData aggregate under the id of the
effective home becomes the previous aggregate (a fresh default when absent)
updated for the connection; that update raises the people count by one and
appends the display name, and raises and appends on the known or the
unknown sub-fields according to the known flag, leaving the other
sub-fields unchanged; the RoomData aggregate under the room id is updated
with the same logic exactly when the effective home equals the main home
and a room is present, and with a differing home or a missing room the
rooms dict is left entirely unchanged. -/
theorem aggregate_update (mh : Home) (st : WelkomData) (c : ConnectedPerson) :
    (dictGet (updateStep mh st c).homes (c.home.getD mh).id
      = some (update_area_data ((dictGet st.homes (c.home.getD mh).id).getD {}) c)) ∧
    (∀ prev : AreaData,
      (update_area_data prev c).people_count = prev.people_count + 1 ∧
      (update_area_data prev c).people = prev.people ++ [c.person.display_name] ∧
      (c.known = true →
        (update_area_data prev c).known_people_count = prev.known_people_count + 1 ∧
        (update_area_data prev c).known_people = prev.known_people ++ [c.person.display_name] ∧
        (update_area_data prev c).unknown_people_count = prev.unknown_people_count ∧
        (update_area_data prev c).unknown_people = prev.unknown_people) ∧
      (c.known = false →
        (update_area_data prev c).unknown_people_count = prev.unknown_people_count + 1 ∧
        (update_area_data prev c).unknown_people = prev.unknown_people ++ [c.person.display_name] ∧
        (update_area_data prev c).known_people_count = prev.known_people_count ∧
        (update_area_data prev c).known_people = prev.known_people)) ∧
    (∀ room, c.room = some room → homeEq (c.home.getD mh) mh = true →
      dictGet (updateStep mh st c).rooms room.id
        = some (update_area_data ((dictGet st.rooms room.id).getD {}) c)) ∧
    ((homeEq (c.home.getD mh) mh = false ∨ c.room = none) →
      (updateStep mh st c).rooms = st.rooms) := by
  refine ⟨?_, ?_, ?_, ?_⟩
  · rw [updateStep_homes]
    exact dictGet_dictUpd_self _ _ _ _
  · intro prev
    cases hk : c.known <;> simp [update_area_data, hk]
  · intro room hr hh
    rw [updateStep_rooms]
    unfold roomsStep
    rw [hh, hr]
    simpa using dictGet_dictUpd_self st.rooms room.id {} (fun ad => update_area_data ad c)
  · intro hcase
    rw [updateStep_rooms]
    unfold roomsStep
    rcases hcase with hh | hr
    · rw [hh]
      simp
    · cases hh : homeEq (c.home.getD mh) mh <;> simp [hh, hr]

def c2conn : ConnectedPerson := sConn false (sPerson "u2" "Guest" false) none (some sRoomLiving)

/-- Witness for C2: an unknown connection in the main home with a room
updates both the home aggregate and the room aggregate, appending to the
unknown sub-list. -/
theorem aggregate_update_witness :
    dictGet (updateStep sHomeMain {} c2conn).homes "main" = some (update_area_data {} c2conn) ∧
    dictGet (updateStep sHomeMain {} c2conn).rooms "living" = some (update_area_data {} c2conn) ∧
    (update_area_data ({} : AreaData) c2conn).unknown_people = ["Guest"] := by
  refine ⟨?_, ?_, ?_⟩
  · have h := (aggregate_update sHomeMain {} c2conn).1
    simpa using h
  · have h := (aggregate_update sHomeMain {} c2conn).2.2.1 sRoomLiving rfl (by decide)
    simpa using h
  · have h := (((aggregate_update sHomeMain {} c2conn).2.1 {}).2.2.2 rfl).2.1
    simpa using h

/-- C6: the unknown-people list of a produced snapshot is exactly the list
of PersonData built (and coordinate-assigned) for the connections whose
known flag is false, in input order. -/
theorem unknown_people_order (mh : Home) (zones : List (String × Rat × Rat))
    (conns : List ConnectedPerson) :
    (async_update_data mh zones conns).unknown_people
      = (conns.filter (fun c => !c.known)).map
          (fun c => assignCoords zones (mkPersonData mh c)) := by
  simp [async_update_data, foldl_updateStep_unknown]

theorem foldl_peopleStep_lookup_of_no_key (mh : Home) (conns : List ConnectedPerson)
    (m : List (String × PersonData)) (k : String)
    (h : ∀ c ∈ conns, c.known = true → c.person.id ≠ k) :
    dictGet (conns.foldl (peopleStep mh) m) k = dictGet m k := by
  induction conns generalizing m with
  | nil => rfl
  | cons c rest ih =>
    simp only [List.foldl_cons]
    rw [ih _ (fun c1 hc1 => h c1 (List.mem_cons_of_mem _ hc1))]
    cases hk : c.known with
    | false => simp [peopleStep, hk]
    | true =>
      simp only [peopleStep, hk, if_true]
      exact dictGet_dictSet_ne m c.person.id k _ (Ne.symm (h c (List.mem_cons_self _ _) hk))

theorem foldl_peopleStep_lookup_mem (mh : Home) (conns : List ConnectedPerson)
    (m : List (String × PersonData))
    (hnodup : ((conns.filter (fun c => c.known)).map (fun c => c.person.id)).Nodup)
    (c : ConnectedPerson) (hc : c ∈ conns) (hk : c.known = true) :
    dictGet (conns.foldl (peopleStep mh) m) c.person.id = some (mkPersonData mh c) := by
  induction conns generalizing m with
  | nil => cases hc
  | cons c0 rest ih =>
    simp only [List.foldl_cons]
    rcases List.mem_cons.mp hc with rfl | hcr
    · simp only [List.filter_cons, hk, if_true, List.map_cons, List.nodup_cons] at hnodup
      rw [foldl_peopleStep_lookup_of_no_key]
      · simp [peopleStep, hk, dictGet_dictSet_self]
      · intro c1 hc1 hk1 heq
        exact hnodup.1 (List.mem_map.mpr ⟨c1, List.mem_filter.mpr ⟨hc1, hk1⟩, heq⟩)
    · have htail : ((rest.filter (fun c => c.known)).map (fun c => c.person.id)).Nodup := by
        cases hk0 : c0.known with
        | true =>
          simp only [List.filter_cons, hk0, if_true, List.map_cons, List.nodup_cons] at hnodup
          exact hnodup.2
        | false =>
          simpa only [List.filter_cons, hk0, Bool.false_eq_true, if_false] using hnodup
      exact ih _ htail hcr

theorem foldl_peopleStep_length (mh : Home) (conns : List ConnectedPerson)
    (m : List (String × PersonData))
    (hnodup : ((conns.filter (fun c => c.known)).map (fun c => c.person.id)).Nodup)
    (hdisj : ∀ c ∈ conns, c.known = true → dictGet m c.person.id = none) :
    (conns.foldl (peopleStep mh) m).length
      = m.length + (conns.filter (fun c => c.known)).length := by
  induction conns generalizing m with
  | nil => simp
  | cons c0 rest ih =>
    simp only [List.foldl_cons, List.filter_cons]
    cases hk : c0.known with
    | false =>
      simp only [Bool.false_eq_true, if_false]
      have hstep : peopleStep mh m c0 = m := by simp [peopleStep, hk]
      rw [hstep]
      apply ih
      · simpa only [List.filter_cons, hk, Bool.false_eq_true, if_false] using hnodup
      · exact fun c hc hkc => hdisj c (List.mem_cons_of_mem _ hc) hkc
    | true =>
      simp only [if_true]
      have hstep : peopleStep mh m c0 = dictSet m c0.person.id (mkPersonData mh c0) := by
        simp [peopleStep, hk]
      simp only [List.filter_cons, hk, if_true, List.map_cons, List.nodup_cons] at hnodup
      rw [hstep]
      have hdisj2 : ∀ c ∈ rest, c.known = true →
          dictGet (dictSet m c0.person.id (mkPersonData mh c0)) c.person.id = none := by
        intro c hc hkc
        by_cases hid : c.person.id = c0.person.id
        · exact absurd (hid ▸ List.mem_map.mpr ⟨c, List.mem_filter.mpr ⟨hc, hkc⟩, rfl⟩) hnodup.1
        · rw [dictGet_dictSet_ne m c0.person.id _ _ hid]
          exact hdisj c (List.mem_cons_of_mem _ hc) hkc
      rw [ih _ hnodup.2 hdisj2,
        length_dictSet_new m c0.person.id _ (hdisj c0 (List.mem_cons_self _ _) hk)]
      simp only [List.length_cons]
      omega

theorem filter_length_split {α : Type} (p : α → Bool) (l : List α) :
    (l.filter p).length + (l.filter (fun a => !(p a))).length = l.length := by
  induction l with
  | nil => rfl
  | cons a t ih =>
    cases hp : p a <;> simp only [List.filter_cons, hp] <;> simp <;> omega

def c3p : Person := sPerson "dup" "Dave" true

def c3conns : List ConnectedPerson :=
  [sConn true c3p none none, sConn true c3p none (some sRoomLiving)]

/-- Counterexample to C3 as stated: two fetched known connections that share
one person id. The known map keeps a single overwritten entry, so the
number of known-map entries plus the unknown-list length is 1, not the
fetched connection count 2, and the first connection appears in neither
place. -/
theorem known_partition_counterexample :
    c3conns.length = 2 ∧
    (∀ c ∈ c3conns, c.known = true) ∧
    (async_update_data sHomeMain [] c3conns).people.length
      + (async_update_data sHomeMain [] c3conns).unknown_people.length = 1 ∧
    ¬((async_update_data sHomeMain [] c3conns).people.length
      + (async_update_data sHomeMain [] c3conns).unknown_people.length = c3conns.length) := by
  refine ⟨rfl, by decide, by decide, by decide⟩

/-- C3 amended: when the known connections of the fetched list carry
pairwise distinct person ids, every known connection has its PersonData in
the known map under its person id, the unknown list consists of the
PersonData of the unknown connections in input order, and the known-map
size plus the unknown-list length equals the fetched connection count. -/
theorem known_partition_amended (mh : Home) (zones : List (String × Rat × Rat))
    (conns : List ConnectedPerson)
    (hnodup : ((conns.filter (fun c => c.known)).map (fun c => c.person.id)).Nodup) :
    (∀ c ∈ conns, c.known = true →
      dictGet (async_update_data mh zones conns).people c.person.id
        = some (assignCoords zones (mkPersonData mh c))) ∧
    ((async_update_data mh zones conns).unknown_people
      = (conns.filter (fun c => !c.known)).map
          (fun c => assignCoords zones (mkPersonData mh c))) ∧
    ((async_update_data mh zones conns).people.length
      + (async_update_data mh zones conns).unknown_people.length = conns.length) := by
  have hpe : (async_update_data mh zones conns).people
      = ((conns.foldl (updateStep mh) {}).people).map
          (fun kv => (kv.1, assignCoords zones kv.2)) := by
    simp [async_update_data]
  have hun : (async_update_data mh zones conns).unknown_people
      = (conns.filter (fun c => !c.known)).map
          (fun c => assignCoords zones (mkPersonData mh c)) := by
    simp [async_update_data, foldl_updateStep_unknown]
  refine ⟨?_, hun, ?_⟩
  · intro c hc hk
    rw [hpe, dictGet_map, foldl_updateStep_people]
    rw [foldl_peopleStep_lookup_mem mh conns [] hnodup c hc hk]
    rfl
  · have hlen : (async_update_data mh zones conns).people.length
        = (conns.filter (fun c => c.known)).length := by
      rw [hpe, List.length_map, foldl_updateStep_people,
        foldl_peopleStep_length mh conns [] hnodup (fun c hc hk => rfl)]
      simp
    rw [hlen, hun, List.length_map]
    exact filter_length_split _ conns

def c3wconns : List ConnectedPerson :=
  [sConn false (sPerson "u1" "Guest A" false) none none,
   sConn true (sPerson "k1" "Alice" true) none none,
   sConn false (sPerson "u2" "Guest B" false) none none]

/-- Witness for the amended C3: a mixed known/unknown fetched list with
distinct known ids splits exactly. -/
theorem known_partition_amended_witness :
    dictGet (async_update_data sHomeMain [] c3wconns).people "k1"
      = some (assignCoords [] (mkPersonData sHomeMain (sConn true (sPerson "k1" "Alice" true) none none))) ∧
    (async_update_data sHomeMain [] c3wconns).people.length
      + (async_update_data sHomeMain [] c3wconns).unknown_people.length = c3wconns.length :=
  ⟨(known_partition_amended sHomeMain [] c3wconns (by decide)).1
      (sConn true (sPerson "k1" "Alice" true) none none) (by decide) rfl,
   (known_partition_amended sHomeMain [] c3wconns (by decide)).2.2⟩

theorem foldl_peopleStep_values (mh : Home) (conns : List ConnectedPerson)
    (m : List (String × PersonData)) (P : PersonData → Prop)
    (hm : ∀ kv ∈ m, P kv.2)
    (hmk : ∀ c ∈ conns, P (mkPersonData mh c)) :
    ∀ kv ∈ conns.foldl (peopleStep mh) m, P kv.2 := by
  induction conns generalizing m with
  | nil => exact hm
  | cons c rest ih =>
    simp only [List.foldl_cons]
    apply ih
    · intro kv hkv
      cases hk : c.known with
      | false =>
        apply hm
        simpa [peopleStep, hk] using hkv
      | true =>
        simp only [peopleStep, hk, if_true] at hkv
        obtain ⟨k1, v1⟩ := kv
        rcases mem_dictSet m c.person.id k1 (mkPersonData mh c) v1 hkv with ⟨_, hv⟩ | hmem
        · exact hv ▸ hmk c (List.mem_cons_self _ _)
        · exact hm _ hmem
    · exact fun c1 hc1 => hmk c1 (List.mem_cons_of_mem _ hc1)

theorem assignCoords_state (zones : List (String × Rat × Rat)) (q : PersonData) :
    (assignCoords zones q).state = q.state := by
  cases hqs : q.state with
  | none => simp [assignCoords, hqs]
  | some s =>
    cases hget : dictGet zones (casefold s) with
    | none => simp [assignCoords, hqs, hget]
    | some v =>
      obtain ⟨la, lo⟩ := v
      simp [assignCoords, hqs, hget]

theorem assignCoords_cases (zones : List (String × Rat × Rat)) (q : PersonData)
    (hla : q.latitude = none) (hlo : q.longitude = none)
    (s : String) (hs : q.state = some s)
    (hkeys : ∀ e ∈ zones, casefold e.1 = e.1)
    (hnodup : (zones.map Prod.fst).Nodup) :
    (∀ z la lo, (z, la, lo) ∈ zones → casefold z = casefold s →
      (assignCoords zones q).latitude = some la ∧ (assignCoords zones q).longitude = some lo) ∧
    ((∀ e ∈ zones, casefold e.1 ≠ casefold s) →
      (assignCoords zones q).latitude = none ∧ (assignCoords zones q).longitude = none) := by
  constructor
  · intro z la lo hmem hmatch
    have hz : z = casefold s := by
      rw [← hmatch]
      exact (hkeys (z, la, lo) hmem).symm
    have hget : dictGet zones (casefold s) = some (la, lo) := by
      rw [← hz]
      exact mem_nodup_dictGet zones z (la, lo) hmem hnodup
    simp [assignCoords, hs, hget]
  · intro hno
    have hget : dictGet zones (casefold s) = none := by
      cases hg : dictGet zones (casefold s) with
      | none => rfl
      | some v => exact absurd (hkeys _ (dictGet_some_mem zones (casefold s) v hg)) (hno _ (dictGet_some_mem zones (casefold s) v hg))
    simp [assignCoords, hs, hget, hla, hlo]

/-- C4: for any PersonData of a produced snapshot, when the zone table
(whose keys are casefolded zone names, pairwise distinct) holds an entry
whose name matches the state case-insensitively, the PersonData carries
the coordinates of that entry; when no entry matches, latitude and
longitude stay unset. -/
theorem coords_resolution (mh : Home) (zones : List (String × Rat × Rat))
    (conns : List ConnectedPerson)
    (hkeys : ∀ e ∈ zones, casefold e.1 = e.1)
    (hnodup : (zones.map Prod.fst).Nodup)
    (pd : PersonData)
    (hpd : pd ∈ (async_update_data mh zones conns).people.map Prod.snd ∨
           pd ∈ (async_update_data mh zones conns).unknown_people)
    (s : String) (hs : pd.state = some s) :
    (∀ z la lo, (z, la, lo) ∈ zones → casefold z = casefold s →
      pd.latitude = some la ∧ pd.longitude = some lo) ∧
    ((∀ e ∈ zones, casefold e.1 ≠ casefold s) →
      pd.latitude = none ∧ pd.longitude = none) := by
  obtain ⟨q, hq, hqla, hqlo⟩ :
      ∃ q, pd = assignCoords zones q ∧ q.latitude = none ∧ q.longitude = none := by
    rcases hpd with hp | hp
    · have hpe : (async_update_data mh zones conns).people
          = ((conns.foldl (updateStep mh) {}).people).map
              (fun kv => (kv.1, assignCoords zones kv.2)) := by
        simp [async_update_data]
      rw [hpe, List.map_map] at hp
      obtain ⟨kv, hkv, heq⟩ := List.mem_map.mp hp
      have hvals := foldl_peopleStep_values mh conns []
        (fun v => v.latitude = none ∧ v.longitude = none)
        (by intro kv h; cases h) (fun c _ => ⟨rfl, rfl⟩)
      rw [foldl_updateStep_people] at hkv
      · exact ⟨kv.2, heq.symm, (hvals kv hkv).1, (hvals kv hkv).2⟩
    · have hun : (async_update_data mh zones conns).unknown_people
          = (conns.filter (fun c => !c.known)).map
              (fun c => assignCoords zones (mkPersonData mh c)) := by
        simp [async_update_data, foldl_updateStep_unknown]
      rw [hun] at hp
      obtain ⟨c, _, heq⟩ := List.mem_map.mp hp
      exact ⟨mkPersonData mh c, heq.symm, rfl, rfl⟩
  subst hq
  have hqs : q.state = some s := by
    rw [← assignCoords_state zones q]
    exact hs
  exact assignCoords_cases zones q hqla hqlo s hqs hkeys hnodup

def c4zones : List (String × Rat × Rat) := [("home", (1, 2))]

def c4conn : ConnectedPerson := sConn false (sPerson "u9" "Visitor" false) none none

def c4pd : PersonData := assignCoords c4zones (mkPersonData sHomeMain c4conn)

/-- Witness for C4: with the zone table mapping home to (1, 2), a person
whose state is the STATE_HOME sentinel gets those coordinates. -/
theorem coords_resolution_witness :
    c4pd.latitude = some 1 ∧ c4pd.longitude = some 2 :=
  (coords_resolution sHomeMain c4zones [c4conn] (by decide) (by decide) c4pd
      (Or.inr (by decide)) STATE_HOME (by decide)).1 "home" 1 2 (by decide) (by decide)

/-- The internal-consistency invariant of an area aggregate. -/
def AdInv (ad : AreaData) : Prop :=
  ad.people_count = ad.people.length ∧
  ad.known_people_count = ad.known_people.length ∧
  ad.unknown_people_count = ad.unknown_people.length ∧
  ad.people_count = ad.known_people_count + ad.unknown_people_count ∧
  Interleave ad.people ad.known_people ad.unknown_people

theorem adInv_empty : AdInv {} :=
  ⟨rfl, rfl, rfl, rfl, Interleave.nil⟩

theorem adInv_update (ad : AreaData) (c : ConnectedPerson) (h : AdInv ad) :
    AdInv (update_area_data ad c) := by
  obtain ⟨h1, h2, h3, h4, h5⟩ := h
  cases hk : c.known with
  | true =>
    refine ⟨?_, ?_, ?_, ?_, ?_⟩
    · simp [update_area_data, hk, h1]
    · simp [update_area_data, hk, h2]
    · simp [update_area_data, hk, h3]
    · simp only [update_area_data, hk, if_true]
      omega
    · simp only [update_area_data, hk, if_true]
      exact Interleave.left _ h5
  | false =>
    refine ⟨?_, ?_, ?_, ?_, ?_⟩
    · simp [update_area_data, hk, h1]
    · simp [update_area_data, hk, h2]
    · simp [update_area_data, hk, h3]
    · simp only [update_area_data, hk, Bool.false_eq_true, if_false]
      omega
    · simp only [update_area_data, hk, Bool.false_eq_true, if_false]
      exact Interleave.right _ h5

theorem foldl_homesStep_values (mh : Home) (conns : List ConnectedPerson)
    (m : List (String × AreaData))
    (hm : ∀ kv ∈ m, AdInv kv.2) :
    ∀ kv ∈ conns.foldl (homesStep mh) m, AdInv kv.2 := by
  induction conns generalizing m with
  | nil => exact hm
  | cons c rest ih =>
    simp only [List.foldl_cons]
    apply ih
    intro kv hkv
    obtain ⟨k1, v1⟩ := kv
    unfold homesStep dictUpd at hkv
    rcases mem_dictSet _ _ _ _ _ hkv with ⟨_, hv⟩ | hmem
    · subst hv
      apply adInv_update
      cases hget : dictGet m (c.home.getD mh).id with
      | none => simpa [hget] using adInv_empty
      | some v => simpa [hget] using hm _ (dictGet_some_mem _ _ _ hget)
    · exact hm _ hmem

theorem foldl_roomsStep_values (mh : Home) (conns : List ConnectedPerson)
    (m : List (String × AreaData))
    (hm : ∀ kv ∈ m, AdInv kv.2) :
    ∀ kv ∈ conns.foldl (roomsStep mh) m, AdInv kv.2 := by
  induction conns generalizing m with
  | nil => exact hm
  | cons c rest ih =>
    simp only [List.foldl_cons]
    apply ih
    intro kv hkv
    obtain ⟨k1, v1⟩ := kv
    unfold roomsStep at hkv
    cases hh : homeEq (c.home.getD mh) mh with
    | false =>
      rw [hh] at hkv
      exact hm _ (by simpa using hkv)
    | true =>
      rw [hh] at hkv
      cases hr : c.room with
      | none =>
        rw [hr] at hkv
        exact hm _ (by simpa using hkv)
      | some room =>
        rw [hr] at hkv
        unfold dictUpd at hkv
        rcases mem_dictSet _ _ _ _ _ (by simpa using hkv) with ⟨_, hv⟩ | hmem
        · subst hv
          apply adInv_update
          cases hget : dictGet m room.id with
          | none => simpa [hget] using adInv_empty
          | some v => simpa [hget] using hm _ (dictGet_some_mem _ _ _ hget)
        · exact hm _ hmem

/-- C10: every home aggregate and every room aggregate of a produced
snapshot is internally consistent: each count field equals the length of
its list, the overall count is the sum of the known and unknown counts,
and the overall people list is an order-preserving interleaving of the
known and unknown lists. -/
theorem aggregate_consistency (mh : Home) (zones : List (String × Rat × Rat))
    (conns : List ConnectedPerson) (k : String) (ad : AreaData)
    (hmem : (k, ad) ∈ (async_update_data mh zones conns).homes ∨
            (k, ad) ∈ (async_update_data mh zones conns).rooms) :
    ad.people_count = ad.people.length ∧
    ad.known_people_count = ad.known_people.length ∧
    ad.unknown_people_count = ad.unknown_people.length ∧
    ad.people_count = ad.known_people_count + ad.unknown_people_count ∧
    Interleave ad.people ad.known_people ad.unknown_people := by
  have hhomes : (async_update_data mh zones conns).homes
      = conns.foldl (homesStep mh) [] := by
    simp [async_update_data, foldl_updateStep_homes]
  have hrooms : (async_update_data mh zones conns).rooms
      = conns.foldl (roomsStep mh) [] := by
    simp [async_update_data, foldl_updateStep_rooms]
  rcases hmem with hm | hm
  · rw [hhomes] at hm
    exact foldl_homesStep_values mh conns [] (by intro kv h; cases h) (k, ad) hm
  · rw [hrooms] at hm
    exact foldl_roomsStep_values mh conns [] (by intro kv h; cases h) (k, ad) hm

def c10ad : AreaData := update_area_data {} c2conn

/-- Witness for C10: the home aggregate created for one unknown connection
is internally consistent. -/
theorem aggregate_consistency_witness :
    c10ad.people_count = c10ad.people.length ∧
    c10ad.known_people_count = c10ad.known_people.length ∧
    c10ad.unknown_people_count = c10ad.unknown_people.length ∧
    c10ad.people_count = c10ad.known_people_count + c10ad.unknown_people_count ∧
    Interleave c10ad.people c10ad.known_people c10ad.unknown_people :=
  aggregate_consistency sHomeMain [] [c2conn] "main" c10ad (Or.inl (by decide))
